import Mathlib

/-!
Verification development for the Gutenberg book-acquisition engine
(`gutenberg/crawl.py`).  The Python source is shallowly embedded: network
effects are an oracle (`String → Option String`, or `Nat → AttemptOutcome`
per attempt for the transport layer), HTML parsing done by BeautifulSoup is
abstracted into parse oracles carried by `Env`, and every function of the
source becomes a pure Lean function over those oracles.  Instrumented
variants additionally record the probe / sleep / scheduling traces that the
probed-order and backoff properties speak about.
-/

namespace Gutenberg

/-- Python truthiness of an optional string result (`if text:`): `None` and
the empty string are falsy, any other string is kept. -/
def pyTruthy : Option String → Option String
  | some t => if t = "" then none else some t
  | none => none

/-- Python `str.lower()` restricted to ASCII letters, the only case the
crawler's comparison against the literal `'english'` exercises. -/
def pyLower (s : String) : String := String.mk (s.data.map Char.toLower)

/-- Python `str.strip()`: drop leading and trailing whitespace. -/
def pyStrip (s : String) : String :=
  String.mk (((s.data.dropWhile Char.isWhitespace).reverse.dropWhile
    Char.isWhitespace).reverse)

/-- Decides whether `needle` occurs at the start of `hay` (character lists). -/
def charsStartWith : List Char → List Char → Bool
  | [], _ => true
  | _ :: _, [] => false
  | a :: as, b :: bs => a = b && charsStartWith as bs

/-- Decides whether `needle` occurs contiguously anywhere in `hay`. -/
def charsHaveSub (needle : List Char) : List Char → Bool
  | [] => charsStartWith needle []
  | b :: bs => charsStartWith needle (b :: bs) || charsHaveSub needle bs

/-- Python's substring test `needle in hay`. -/
def pyIn (needle hay : String) : Bool := charsHaveSub needle.data hay.data

/-- Python `re.search(r'\d{4}', s).group(0)`: the first run of four
consecutive digits in the character list, if any. -/
def firstDigits4 : List Char → Option String
  | c1 :: c2 :: c3 :: c4 :: rest =>
    if c1.isDigit && c2.isDigit && c3.isDigit && c4.isDigit then
      some (String.mk [c1, c2, c3, c4])
    else firstDigits4 (c2 :: c3 :: c4 :: rest)
  | _ => none
termination_by l => l.length
decreasing_by simp

/-- Python `s.split('/')` on character lists: the `/`-separated segments,
with empty segments kept, as `str.split` produces them. -/
def splitOnSlash : List Char → List (List Char)
  | [] => [[]]
  | c :: cs =>
    let r := splitOnSlash cs
    if c = '/' then [] :: r
    else
      match r with
      | [] => [[c]]
      | seg :: segs => (c :: seg) :: segs

/-- Python `s.split('/')[-1]`: the last `/`-separated segment. -/
def lastSegment (s : String) : String :=
  String.mk (((splitOnSlash s.data).reverse).headD [])

/-! ## Transport (`fetch_text`, crawl.py lines 21-43)

One attempt of `session.get` is modelled by an `AttemptOutcome`: an HTTP
response with its status, the result of the primary text decode (`none` when
`response.text()` raises `UnicodeDecodeError`) and the permissive
ISO-8859-1 decode of the raw body (total, never fails); or a timeout; or a
transport-level error.  The loop over `range(retries)` becomes a recursion
over the list of attempt indices, instrumented with the list of attempts
made and the list of sleep durations performed. -/

inductive AttemptOutcome where
  | response (status : Nat) (primary : Option String) (raw : String)
  | timeout
  | failure
deriving DecidableEq

/-- Number of attempts `fetch_text` allows (`retries = 3`). -/
def retries : Nat := 3

/-- Result of `fetch_text` together with its observable trace: which attempt
indices ran, and which sleep durations were performed between attempts. -/
structure FetchTrace where
  attempts : List Nat
  sleeps : List Nat
  result : Option String
deriving DecidableEq, Repr

/-- Body of `fetch_text`'s retry loop, translated clause by clause:
a 200 response returns `response.text()` or, when the primary decode fails,
the ISO-8859-1 decode of the raw bytes; any other status logs and hits
`continue`, which jumps to the next iteration PAST the sleep statement;
a timeout or other exception falls through to
`if attempt < retries - 1: await asyncio.sleep(2 ** attempt)`. -/
def fetch_text_loop (oracle : Nat → AttemptOutcome) : List Nat → FetchTrace
  | [] => ⟨[], [], none⟩
  | attempt :: rest =>
    match oracle attempt with
    | .response status primary raw =>
      if status = 200 then ⟨[attempt], [], some (primary.getD raw)⟩
      else
        let t := fetch_text_loop oracle rest
        ⟨attempt :: t.attempts, t.sleeps, t.result⟩
    | _ =>
      if attempt < retries - 1 then
        let t := fetch_text_loop oracle rest
        ⟨attempt :: t.attempts, (2 ^ attempt) :: t.sleeps, t.result⟩
      else
        let t := fetch_text_loop oracle rest
        ⟨attempt :: t.attempts, t.sleeps, t.result⟩

/-- The whole of `fetch_text`: run the loop over attempts `0, 1, 2`; if no
attempt returned, the function returns `None`. -/
def fetch_text (oracle : Nat → AttemptOutcome) : FetchTrace :=
  fetch_text_loop oracle (List.range retries)

/-- An attempt outcome that ends the loop: an HTTP response with status 200. -/
def isHttp200 : AttemptOutcome → Bool
  | .response s _ _ => s = 200
  | _ => false

/-- The text a single attempt outcome yields, if it is a 200 response: the
primary decode when it succeeded, otherwise the ISO-8859-1 fallback. -/
def succText : AttemptOutcome → Option String
  | .response s p r => if s = 200 then some (p.getD r) else none
  | _ => none

/-- An outcome after which the source's backoff sleep is reached: a timeout
or a transport-level error.  A response (of any status) is not: status 200
returns, any other status hits `continue` and skips the sleep. -/
def backoffEligible : AttemptOutcome → Bool
  | .response _ _ _ => false
  | _ => true

/-- Elements of a list up to and including the first one satisfying `p`. -/
def takeThrough (p : α → Bool) : List α → List α
  | [] => []
  | a :: as => if p a then [a] else a :: takeThrough p as

/-- First defined element of a list of optional values. -/
def firstSome : List (Option String) → Option String
  | [] => none
  | o :: os => match o with
    | some t => some t
    | none => firstSome os

lemma fetch_text_loop_attempts (oracle : Nat → AttemptOutcome) :
    ∀ l : List Nat, (fetch_text_loop oracle l).attempts =
      takeThrough (fun i => isHttp200 (oracle i)) l := by
  intro l
  induction l with
  | nil => rfl
  | cons i rest ih =>
    cases h : oracle i with
    | response s p r =>
      by_cases hs : s = 200 <;>
        simp [fetch_text_loop, takeThrough, h, isHttp200, hs, ih]
    | timeout =>
      by_cases hi : i < retries - 1 <;>
        simp [fetch_text_loop, takeThrough, h, isHttp200, hi, ih]
    | failure =>
      by_cases hi : i < retries - 1 <;>
        simp [fetch_text_loop, takeThrough, h, isHttp200, hi, ih]

lemma fetch_text_loop_sleeps (oracle : Nat → AttemptOutcome) :
    ∀ l : List Nat, (fetch_text_loop oracle l).sleeps =
      ((fetch_text_loop oracle l).attempts.filter
        (fun i => decide (i < retries - 1) && backoffEligible (oracle i))).map
        (fun i => 2 ^ i) := by
  intro l
  induction l with
  | nil => rfl
  | cons i rest ih =>
    cases h : oracle i with
    | response s p r =>
      by_cases hs : s = 200 <;>
        simp [fetch_text_loop, h, backoffEligible, hs, ih]
    | timeout =>
      by_cases hi : i < retries - 1 <;>
        simp [fetch_text_loop, h, backoffEligible, hi, ih]
    | failure =>
      by_cases hi : i < retries - 1 <;>
        simp [fetch_text_loop, h, backoffEligible, hi, ih]

lemma fetch_text_loop_result (oracle : Nat → AttemptOutcome) :
    ∀ l : List Nat, (fetch_text_loop oracle l).result =
      firstSome (l.map (fun i => succText (oracle i))) := by
  intro l
  induction l with
  | nil => rfl
  | cons i rest ih =>
    cases h : oracle i with
    | response s p r =>
      by_cases hs : s = 200 <;>
        simp [fetch_text_loop, firstSome, succText, h, hs, ih]
    | timeout =>
      by_cases hi : i < retries - 1 <;>
        simp [fetch_text_loop, firstSome, succText, h, hi, ih]
    | failure =>
      by_cases hi : i < retries - 1 <;>
        simp [fetch_text_loop, firstSome, succText, h, hi, ih]

lemma takeThrough_length_le (p : α → Bool) :
    ∀ l : List α, (takeThrough p l).length ≤ l.length := by
  intro l
  induction l with
  | nil => simp [takeThrough]
  | cons a as ih =>
    by_cases h : p a = true
    · simp [takeThrough, h]
    · simp [takeThrough, h]
      exact ih

/-! ## Locator (`get_book_data`, crawl.py lines 46-83)

`get_book_data` takes the network as an oracle `fetch : String → Option
String` (the observable result of `fetch_text` for a URL) and is
instrumented to return, next to its result, the list of URLs it probed in
order.  The nested loops of the source (versions 0-9 x the extension list,
with a "no-images" pre-probe for epub and html, then the unversioned pass)
become structural recursions with early return via `Option`. -/

/-- The source's extension priority list. -/
def extensions : List String := ["epub", "html", "pdf", "txt", "txt.utf8"]

/-- Inner `for ext in extensions` loop for one path root `pfx`
(versioned `{base_url}/{book_id}-{i}` or unversioned `{base_url}/{book_id}`):
for epub and html first probe the `.noimages` variant and return its text if
truthy, then probe the plain path; any falsy probe advances to the next
candidate.  First component: the URLs probed, in order. -/
def tryExtsTraced (fetch : String → Option String) (pfx : String) :
    List String → List String × Option String
  | [] => ([], none)
  | ext :: rest =>
    if ext = "epub" || ext = "html" then
      match pyTruthy (fetch (pfx ++ "." ++ ext ++ ".noimages")) with
      | some t => ([pfx ++ "." ++ ext ++ ".noimages"], some t)
      | none =>
        match pyTruthy (fetch (pfx ++ "." ++ ext)) with
        | some t => ([pfx ++ "." ++ ext ++ ".noimages", pfx ++ "." ++ ext], some t)
        | none =>
          let r := tryExtsTraced fetch pfx rest
          ((pfx ++ "." ++ ext ++ ".noimages") :: (pfx ++ "." ++ ext) :: r.1, r.2)
    else
      match pyTruthy (fetch (pfx ++ "." ++ ext)) with
      | some t => ([pfx ++ "." ++ ext], some t)
      | none =>
        let r := tryExtsTraced fetch pfx rest
        ((pfx ++ "." ++ ext) :: r.1, r.2)

/-- Outer `for i in range(10)` loop of `get_book_data`. -/
def versionLoopTraced (fetch : String → Option String) (base_url book_id : String) :
    List Nat → List String × Option String
  | [] => ([], none)
  | i :: rest =>
    let r := tryExtsTraced fetch (base_url ++ "/" ++ book_id ++ "-" ++ toString i) extensions
    match r.2 with
    | some t => (r.1, some t)
    | none =>
      let r2 := versionLoopTraced fetch base_url book_id rest
      (r.1 ++ r2.1, r2.2)

/-- `get_book_data` with its probe trace: the versioned pass over versions
0-9, then the unversioned pass; `None` when every candidate failed. -/
def get_book_data_traced (fetch : String → Option String) (book_id : String) :
    List String × Option String :=
  let base_url := "https://www.gutenberg.org/files/" ++ book_id
  let r := versionLoopTraced fetch base_url book_id (List.range 10)
  match r.2 with
  | some t => (r.1, some t)
  | none =>
    let r2 := tryExtsTraced fetch (base_url ++ "/" ++ book_id) extensions
    (r.1 ++ r2.1, r2.2)

/-- Result of `get_book_data` (the trace forgotten). -/
def get_book_data (fetch : String → Option String) (book_id : String) :
    Option String :=
  (get_book_data_traced fetch book_id).2

/-! ### Specification side for the probe order (claim C2)

These definitions transcribe the claim's words, not the source: the fixed
per-prefix format order "no-images epub, plain epub, no-images html, plain
html, pdf, txt, txt.utf8", the candidate list "versions 0 through 9, then
the unversioned paths", and a linear scan that probes each candidate in
order, stops at the first truthy probe and returns its content. -/

/-- Claim C2's format order for one path root. -/
def specFormatOrder (pfx : String) : List String :=
  [pfx ++ ".epub.noimages", pfx ++ ".epub", pfx ++ ".html.noimages", pfx ++ ".html",
   pfx ++ ".pdf", pfx ++ ".txt", pfx ++ ".txt.utf8"]

/-- Claim C2's candidate order for a book: versions 0-9 in the format order,
then the unversioned paths in the same format order. -/
def specCandidateOrder (book_id : String) : List String :=
  ((List.range 10).map (fun i =>
      specFormatOrder
        ("https://www.gutenberg.org/files/" ++ book_id ++ "/" ++ book_id ++ "-" ++ toString i))).flatten
    ++ specFormatOrder ("https://www.gutenberg.org/files/" ++ book_id ++ "/" ++ book_id)

/-- Probe a list of candidate URLs in order: record each probed URL, stop at
the first truthy result and return its content, probing nothing further;
return `none` after exhausting the list. -/
def specProbeSeq (fetch : String → Option String) : List String → List String × Option String
  | [] => ([], none)
  | u :: us =>
    match pyTruthy (fetch u) with
    | some t => ([u], some t)
    | none =>
      let r := specProbeSeq fetch us
      (u :: r.1, r.2)

lemma specProbeSeq_append (fetch : String → Option String) (xs ys : List String) :
    specProbeSeq fetch (xs ++ ys) =
      match (specProbeSeq fetch xs).2 with
      | some t => ((specProbeSeq fetch xs).1, some t)
      | none => ((specProbeSeq fetch xs).1 ++ (specProbeSeq fetch ys).1,
                 (specProbeSeq fetch ys).2) := by
  induction xs with
  | nil => simp [specProbeSeq]
  | cons u us ih =>
    cases h : pyTruthy (fetch u) with
    | some t => simp [specProbeSeq, h]
    | none =>
      simp only [List.cons_append, specProbeSeq, h, List.append_eq]
      rw [ih]
      cases h2 : (specProbeSeq fetch us).2 <;> simp

/-- String-append reassociation helpers used to align the URL strings the
source assembles piecewise with the literal forms of the claim. -/
lemma strApp3 (a x y : String) : a ++ x ++ y = a ++ (x ++ y) :=
  String.append_assoc a x y

lemma strApp4 (a x y z : String) : a ++ x ++ y ++ z = a ++ (x ++ y ++ z) := by
  rw [String.append_assoc, String.append_assoc, String.append_assoc]

lemma tryExts_eq_spec (fetch : String → Option String) (pfx : String) :
    tryExtsTraced fetch pfx extensions = specProbeSeq fetch (specFormatOrder pfx) := by
  have e1 : pfx ++ ".epub" ++ ".noimages" = pfx ++ ".epub.noimages" := by
    rw [strApp3]; rfl
  have e2 : pfx ++ "." ++ "epub" = pfx ++ ".epub" := by rw [strApp3]; rfl
  have e3 : pfx ++ ".html" ++ ".noimages" = pfx ++ ".html.noimages" := by
    rw [strApp3]; rfl
  have e4 : pfx ++ "." ++ "html" = pfx ++ ".html" := by rw [strApp3]; rfl
  have e5 : pfx ++ "." ++ "pdf" = pfx ++ ".pdf" := by rw [strApp3]; rfl
  have e6 : pfx ++ "." ++ "txt" = pfx ++ ".txt" := by rw [strApp3]; rfl
  have e7 : pfx ++ "." ++ "txt.utf8" = pfx ++ ".txt.utf8" := by rw [strApp3]; rfl
  simp only [extensions, specFormatOrder]
  simp [tryExtsTraced, specProbeSeq, e1, e2, e3, e4, e5, e6, e7]
  cases pyTruthy (fetch (pfx ++ ".epub.noimages")) <;>
    cases pyTruthy (fetch (pfx ++ ".epub")) <;>
    cases pyTruthy (fetch (pfx ++ ".html.noimages")) <;>
    cases pyTruthy (fetch (pfx ++ ".html")) <;>
    cases pyTruthy (fetch (pfx ++ ".pdf")) <;>
    cases pyTruthy (fetch (pfx ++ ".txt")) <;>
    cases pyTruthy (fetch (pfx ++ ".txt.utf8")) <;>
    simp

lemma versionLoop_eq_spec (fetch : String → Option String) (base_url book_id : String) :
    ∀ is : List Nat,
      versionLoopTraced fetch base_url book_id is =
        specProbeSeq fetch
          ((is.map (fun i =>
            specFormatOrder (base_url ++ "/" ++ book_id ++ "-" ++ toString i))).flatten) := by
  intro is
  induction is with
  | nil => simp [versionLoopTraced, specProbeSeq]
  | cons i rest ih =>
    simp only [versionLoopTraced, List.map_cons, List.flatten_cons]
    rw [specProbeSeq_append, ← tryExts_eq_spec, ih]

/-- Core equivalence: the traced Locator equals the claim's ordered
first-success scan over the claim's candidate list. -/
lemma get_book_data_eq_spec (fetch : String → Option String) (book_id : String) :
    get_book_data_traced fetch book_id = specProbeSeq fetch (specCandidateOrder book_id) := by
  simp only [get_book_data_traced, specCandidateOrder]
  rw [specProbeSeq_append, versionLoop_eq_spec fetch _ book_id (List.range 10),
    ← tryExts_eq_spec]

lemma pyTruthy_ne_some_empty (o : Option String) : pyTruthy o ≠ some "" := by
  cases o with
  | none => simp [pyTruthy]
  | some t =>
    by_cases h : t = "" <;> simp [pyTruthy, h]

lemma pyTruthy_idem (o : Option String) : pyTruthy (pyTruthy o) = pyTruthy o := by
  cases o with
  | none => rfl
  | some t =>
    by_cases h : t = "" <;> simp [pyTruthy, h]

lemma specProbeSeq_ne_some_empty (fetch : String → Option String) :
    ∀ l : List String, (specProbeSeq fetch l).2 ≠ some "" := by
  intro l
  induction l with
  | nil => simp [specProbeSeq]
  | cons u us ih =>
    cases h : pyTruthy (fetch u) with
    | none => simpa [specProbeSeq, h] using ih
    | some t =>
      have := pyTruthy_ne_some_empty (fetch u)
      rw [h] at this
      simp [specProbeSeq, h]
      intro ht
      exact this (by rw [ht])

lemma specProbeSeq_truthy_fetch (fetch : String → Option String) :
    ∀ l : List String,
      specProbeSeq (fun u => pyTruthy (fetch u)) l = specProbeSeq fetch l := by
  intro l
  induction l with
  | nil => rfl
  | cons u us ih =>
    have hi := pyTruthy_idem (fetch u)
    cases h : pyTruthy (fetch u) with
    | none =>
      rw [h] at hi
      simp [specProbeSeq, h, hi, ih]
    | some t =>
      rw [h] at hi
      simp [specProbeSeq, h, hi]

/-! ## Metadata Resolver (`get_book_metadata`, crawl.py lines 86-103)

The catalog detail page is fetched through the same network oracle; what
BeautifulSoup extracts from it (the `table.bibrec` element, if present, and
its rows' `th`/`td` text) is an abstract parse oracle of the environment.
A missing `th` or `td` cell contributes `''`, as in the source. -/

/-- One `tr` row of the bibliographic table: text of its `th` (label) and
`td` (value) cells, `none` when the cell element is missing. -/
structure BibRow where
  th : Option String
  td : Option String
deriving DecidableEq

/-- Metadata of a book (`{'year': ..., 'language': ...}`). -/
structure Metadata where
  year : String
  language : String
deriving DecidableEq, Repr

/-- One index-page listing entry (`li.booklink`): the `a` element's `href`,
and the text of `span.title` / `span.subtitle` when those elements exist. -/
structure BookElem where
  href : String
  title : Option String
  subtitle : Option String
deriving DecidableEq

/-- The record the orchestrator emits for one book. -/
structure BookRecord where
  id : String
  title : String
  author : String
  year : String
  text : String
deriving DecidableEq, Repr

/-- The crawler's environment: the network oracle and the BeautifulSoup
parse oracles.  `fetch url` is the text `fetch_text(session, url)` resolves
to (or `none`); `parseBibrec text` is the rows of `soup.find('table',
class_='bibrec')` (or `none` when that table is absent); `parseBooklinks
text` the entries of `soup.select('li.booklink')`; `findNextHref text` the
`href` of `soup.find('a', string='Next')` when present. -/
structure Env where
  fetch : String → Option String
  parseBibrec : String → Option (List BibRow)
  parseBooklinks : String → List BookElem
  findNextHref : String → Option String

/-- Body of `get_book_metadata`'s row loop: a row whose `th` text contains
`'Release Date'` overwrites `year` with the first 4-digit run of its `td`
text (if one exists); a row whose `th` text contains `'Language'` overwrites
`language` with the stripped `td` text.  Both tests run on every row. -/
def updRow (m : Metadata) (row : BibRow) : Metadata :=
  let th_text := row.th.getD ""
  let td_text := row.td.getD ""
  let m1 :=
    if pyIn "Release Date" th_text then
      match firstDigits4 td_text.data with
      | some y => { m with year := y }
      | none => m
    else m
  if pyIn "Language" th_text then { m1 with language := pyStrip td_text } else m1

/-- `get_book_metadata`: defaults `{'year': 'Unknown', 'language':
'Unknown'}`, overwritten per matching row when the page fetch yields truthy
text and the bibrec table exists. -/
def get_book_metadata (env : Env) (book_id : String) : Metadata :=
  match pyTruthy (env.fetch ("https://www.gutenberg.org/ebooks/" ++ book_id)) with
  | none => ⟨"Unknown", "Unknown"⟩
  | some text =>
    match env.parseBibrec text with
    | none => ⟨"Unknown", "Unknown"⟩
    | some rows => rows.foldl updRow ⟨"Unknown", "Unknown"⟩

/-! ## Per-book orchestration (`download_books`, crawl.py lines 106-123) -/

/-- `download_books` for one listing entry: extract the book id from the
entry's `href`, resolve metadata, drop the book unless the lowercased
language equals `'english'`, default a missing title to `'No Title'` and a
missing author to `'Unknown Author'`, resolve content, and emit a record
exactly when the content is truthy.  (The `progress.update(1)` calls are
pure side channel and are not modelled.) -/
def download_books (env : Env) (book : BookElem) : Option BookRecord :=
  let book_id := lastSegment book.href
  let metadata := get_book_metadata env book_id
  if pyLower metadata.language ≠ "english" then none
  else
    let title := book.title.getD "No Title"
    let author := book.subtitle.getD "Unknown Author"
    match pyTruthy (get_book_data env.fetch book_id) with
    | some text => some ⟨book_id, title, author, metadata.year, text⟩
    | none => none

/-! ## Index Walker / Orchestrator (`get_books_list`, crawl.py lines 126-153)

The `while True` loop is embedded as a step function on a crawl state plus a
fuel-indexed iterator, because the loop is not structurally terminating (on
a failed page fetch the source loops again with the same URL).  `sched` is
instrumentation: the book ids scheduled so far, in scheduling order. -/

/-- The state the loop threads: the current index URL, the collected
records, the processed-id set (a list in insertion order), and the
instrumented scheduling trace. -/
structure WalkState where
  indexUrl : String
  books : List BookRecord
  processed : List String
  sched : List String
deriving DecidableEq

/-- Result of one iteration of the `while True` body: continue with a new
state, or leave the loop (`break` / exhausted pagination). -/
inductive StepResult where
  | cont (s : WalkState)
  | halt (s : WalkState)
deriving DecidableEq

/-- Book id extracted from a listing entry (`book.a['href'].split('/')[-1]`). -/
def bidOf (b : BookElem) : String := lastSegment b.href

/-- The scheduling pass over one page's listing entries: an entry whose id is
already in the processed set is skipped; otherwise its resolution task is
appended and its id is added to the processed set immediately, before any
task runs.  Returns the tasks in scheduling order and the grown set. -/
def scheduleTasks : List BookElem → List String → List BookElem × List String
  | [], processed => ([], processed)
  | b :: rest, processed =>
    if bidOf b ∈ processed then scheduleTasks rest processed
    else
      let r := scheduleTasks rest (processed ++ [bidOf b])
      (b :: r.1, r.2)

/-- One iteration of `get_books_list`'s `while True` body: fetch the index
page (a falsy fetch leaves everything unchanged and loops again); parse the
listing entries and `break` if there are none; schedule unseen entries and
gather their `download_books` results; extend `books` with the non-`None`
results; follow the `Next` link or `break`. -/
def walkStep (env : Env) (s : WalkState) : StepResult :=
  match pyTruthy (env.fetch s.indexUrl) with
  | none => .cont s
  | some text =>
    match env.parseBooklinks text with
    | [] => .halt s
    | b :: bs =>
      let sc := scheduleTasks (b :: bs) s.processed
      let results := sc.1.map (download_books env)
      let books2 := s.books ++ results.filterMap id
      let sched2 := s.sched ++ sc.1.map bidOf
      match env.findNextHref text with
      | some href => .cont ⟨"https://www.gutenberg.org" ++ href, books2, sc.2, sched2⟩
      | none => .halt ⟨s.indexUrl, books2, sc.2, sched2⟩

/-- Iterate `walkStep` for at most `fuel` iterations (the loop itself has no
built-in bound; `fuel` indexes how far the execution is observed). -/
def walkRun (env : Env) : Nat → WalkState → WalkState
  | 0, s => s
  | fuel + 1, s =>
    match walkStep env s with
    | .cont s2 => walkRun env fuel s2
    | .halt s2 => s2

/-- The fixed search start URL and the initial crawl state. -/
def initState : WalkState :=
  ⟨"https://www.gutenberg.org/ebooks/search/?sort_order=downloads&languages=en", [], [], []⟩

/-- `get_books_list`: run the page walk from the fixed start state and
return the collected records. -/
def get_books_list (env : Env) (fuel : Nat) : List BookRecord :=
  (walkRun env fuel initState).books

/-! ## Run entry point (`__main__`, crawl.py lines 170-175)

The only persisted state the entry point consults is whether the output
artifact `gutenberg_books.tsv` exists, modelled as a boolean.  Handing the
records to the Sink (`save_to_csv`) creates the artifact; the Sink's own
formatting is outside the core. -/

/-- Persistent state across invocations: whether the output artifact exists. -/
structure SinkState where
  artifact : Bool
deriving DecidableEq, Repr

/-- The `__main__` block: when the artifact does not exist, run one full
acquisition (`get_books_list`) and hand the records to the Sink, which
persists the artifact; when it exists, do nothing.  First component: the
records handed to the Sink this invocation, `none` when no run executed. -/
def main_entry (env : Env) (fuel : Nat) (fs : SinkState) :
    Option (List BookRecord) × SinkState :=
  if fs.artifact then (none, fs)
  else (some (get_books_list env fuel), ⟨true⟩)

/-! ## Further helper lemmas -/

lemma succText_isSome {o : AttemptOutcome} (h : isHttp200 o = true) :
    (succText o).isSome = true := by
  cases o with
  | response s p r =>
    have hs : s = 200 := by simpa [isHttp200] using h
    simp [succText, hs]
  | timeout => simp [isHttp200] at h
  | failure => simp [isHttp200] at h

lemma firstSome_isSome :
    ∀ l : List (Option String), (∃ o ∈ l, o.isSome = true) → (firstSome l).isSome = true := by
  intro l
  induction l with
  | nil => rintro ⟨o, ho, _⟩; simp at ho
  | cons a as ih =>
    rintro ⟨o, ho, hs⟩
    cases a with
    | some t => simp [firstSome]
    | none =>
      rcases List.mem_cons.mp ho with h1 | h2
      · rw [h1] at hs; simp at hs
      · simpa [firstSome] using ih ⟨o, h2, hs⟩

lemma pyTruthy_of_ne_empty {o : Option String} (h : o ≠ some "") : pyTruthy o = o := by
  cases o with
  | none => rfl
  | some t =>
    have ht : t ≠ "" := fun he => h (by rw [he])
    simp [pyTruthy, ht]

lemma get_book_data_ne_some_empty (fetch : String → Option String) (book_id : String) :
    get_book_data fetch book_id ≠ some "" := by
  rw [get_book_data, get_book_data_eq_spec]
  exact specProbeSeq_ne_some_empty fetch (specCandidateOrder book_id)

/-! ## Claim theorems -/

/-- Oracle that answers every attempt with an HTTP 404 response. -/
def all404 : Nat → AttemptOutcome := fun _ => .response 404 none ""

/-- Claim C4, counterexample.  With every attempt answering HTTP 404, all
three attempts run and fail — two of them are failed attempts other than the
last — yet the sleep trace is empty: the `continue` taken on a non-200
status jumps past the backoff sleep, so `fetch_text` does not sleep
`2^attempt` between consecutive attempts when the failure is a non-200
status, contradicting the claim's "regardless of whether the failure was a
timeout, a non-200 status, or a transport-level error" (and the realized
sleep sequence is never `1, 2, 4`). -/
theorem non200_no_backoff_cex :
    (fetch_text all404).attempts = [0, 1, 2] ∧ (fetch_text all404).sleeps = [] ∧
      (fetch_text all404).result = none :=
  ⟨rfl, rfl, rfl⟩

/-- Claim C4, amended: for every URL (attempt oracle) `fetch_text` makes at
most 3 attempts; a sleep of `2^attempt` time units happens after a failed
attempt other than the last exactly when that failure is a timeout or a
transport-level error (so the realized backoff sequence is at most `1, 2`);
after a non-200 response the loop proceeds to the next attempt without
sleeping. -/
theorem fetch_attempts_backoff (oracle : Nat → AttemptOutcome) :
    (fetch_text oracle).attempts.length ≤ 3 ∧
    (fetch_text oracle).sleeps =
      ((fetch_text oracle).attempts.filter
        (fun i => decide (i < retries - 1) && backoffEligible (oracle i))).map
        (fun i => 2 ^ i) := by
  constructor
  · rw [fetch_text, fetch_text_loop_attempts]
    have h := takeThrough_length_le (fun i => isHttp200 (oracle i)) (List.range retries)
    simpa [retries] using h
  · exact fetch_text_loop_sleeps oracle (List.range retries)

/-- Claim C7: the result of `fetch_text` is exactly the decoded text of the
first attempt that receives a 200 response — the primary decode when it
succeeds, otherwise the permissive ISO-8859-1 fallback decode of the raw
bytes, which is total.  In particular, whenever some attempt receives a 200
response the call returns text: a decoding failure is never surfaced and
never turns a successful response into `None`. -/
theorem success_response_always_text (oracle : Nat → AttemptOutcome) :
    (fetch_text oracle).result =
      firstSome ((List.range retries).map (fun i => succText (oracle i))) ∧
    (∀ s p r, succText (.response s p r) = if s = 200 then some (p.getD r) else none) ∧
    ((∃ i, i < retries ∧ isHttp200 (oracle i) = true) →
      ((fetch_text oracle).result).isSome = true) := by
  refine ⟨fetch_text_loop_result oracle (List.range retries), fun s p r => rfl, ?_⟩
  rintro ⟨i, hi, h200⟩
  rw [fetch_text, fetch_text_loop_result oracle (List.range retries)]
  exact firstSome_isSome _
    ⟨succText (oracle i),
      List.mem_map_of_mem _ (List.mem_range.mpr hi),
      succText_isSome h200⟩

/-- Claim C2: the Locator probes the candidate URLs in exactly the claim's
fixed order — versions 0 through 9, each in the order no-images epub, plain
epub, no-images html, plain html, pdf, txt, txt.utf8, then the unversioned
paths in the same format order (`specCandidateOrder`) — stopping at the
first truthy probe, whose content it returns, probing no further candidate
after a success, and returning `None` when every candidate fails
(`specProbeSeq`). -/
theorem locator_probe_order (fetch : String → Option String) (book_id : String) :
    get_book_data_traced fetch book_id = specProbeSeq fetch (specCandidateOrder book_id) :=
  get_book_data_eq_spec fetch book_id

/-- Claim C10: the Locator never returns an empty string — whenever it
returns non-absent content that content is non-empty — and a candidate whose
fetch succeeds with the empty string is treated exactly like a failed fetch:
collapsing every empty fetch result to `None` changes neither the sequence
of URLs the Locator probes nor its result. -/
theorem locator_content_nonempty (fetch : String → Option String) (book_id : String) :
    get_book_data fetch book_id ≠ some "" ∧
    get_book_data_traced (fun u => pyTruthy (fetch u)) book_id =
      get_book_data_traced fetch book_id := by
  refine ⟨get_book_data_ne_some_empty fetch book_id, ?_⟩
  rw [get_book_data_eq_spec, get_book_data_eq_spec,
    specProbeSeq_truthy_fetch fetch (specCandidateOrder book_id)]

lemma updRow_year_cases (m : Metadata) (r : BibRow) :
    (updRow m r).year = m.year ∨
      (pyIn "Release Date" (r.th.getD "") = true ∧
        firstDigits4 (r.td.getD "").data = some ((updRow m r).year)) := by
  unfold updRow
  by_cases h1 : pyIn "Release Date" (r.th.getD "") = true
  · cases h4 : firstDigits4 (r.td.getD "").data with
    | none =>
      left
      by_cases h2 : pyIn "Language" (r.th.getD "") = true <;> simp [h1, h4, h2]
    | some y =>
      right
      by_cases h2 : pyIn "Language" (r.th.getD "") = true <;> simp [h1, h4, h2]
  · left
    by_cases h2 : pyIn "Language" (r.th.getD "") = true <;> simp [h1, h2]

lemma updRow_year_not_matched (m : Metadata) (r : BibRow)
    (h : ¬ pyIn "Release Date" (r.th.getD "") = true) : (updRow m r).year = m.year := by
  unfold updRow
  by_cases h2 : pyIn "Language" (r.th.getD "") = true <;> simp [h, h2]

lemma updRow_language_cases (m : Metadata) (r : BibRow) :
    (updRow m r).language = m.language ∨
      (pyIn "Language" (r.th.getD "") = true ∧
        pyStrip (r.td.getD "") = (updRow m r).language) := by
  unfold updRow
  by_cases h2 : pyIn "Language" (r.th.getD "") = true
  · right
    refine ⟨h2, ?_⟩
    by_cases h1 : pyIn "Release Date" (r.th.getD "") = true
    · cases h4 : firstDigits4 (r.td.getD "").data <;> simp [h1, h4, h2]
    · simp [h1, h2]
  · left
    by_cases h1 : pyIn "Release Date" (r.th.getD "") = true
    · cases h4 : firstDigits4 (r.td.getD "").data <;> simp [h1, h4, h2]
    · simp [h1, h2]

lemma updRow_language_not_matched (m : Metadata) (r : BibRow)
    (h : ¬ pyIn "Language" (r.th.getD "") = true) : (updRow m r).language = m.language := by
  unfold updRow
  by_cases h1 : pyIn "Release Date" (r.th.getD "") = true
  · cases h4 : firstDigits4 (r.td.getD "").data <;> simp [h1, h4, h]
  · simp [h1, h]

lemma foldl_year_cases (rows : List BibRow) :
    ∀ m : Metadata, (rows.foldl updRow m).year = m.year ∨
      ∃ row ∈ rows, pyIn "Release Date" (row.th.getD "") = true ∧
        firstDigits4 (row.td.getD "").data = some ((rows.foldl updRow m).year) := by
  induction rows with
  | nil => intro m; left; rfl
  | cons r rs ih =>
    intro m
    rw [List.foldl_cons]
    rcases ih (updRow m r) with h | ⟨row, hrow, hin, hd⟩
    · rcases updRow_year_cases m r with h2 | ⟨hin, hd⟩
      · left; rw [h, h2]
      · right
        refine ⟨r, List.mem_cons_self r rs, hin, ?_⟩
        rw [h]; exact hd
    · right; exact ⟨row, List.mem_cons_of_mem r hrow, hin, hd⟩

lemma foldl_language_cases (rows : List BibRow) :
    ∀ m : Metadata, (rows.foldl updRow m).language = m.language ∨
      ∃ row ∈ rows, pyIn "Language" (row.th.getD "") = true ∧
        pyStrip (row.td.getD "") = (rows.foldl updRow m).language := by
  induction rows with
  | nil => intro m; left; rfl
  | cons r rs ih =>
    intro m
    rw [List.foldl_cons]
    rcases ih (updRow m r) with h | ⟨row, hrow, hin, hd⟩
    · rcases updRow_language_cases m r with h2 | ⟨hin, hd⟩
      · left; rw [h, h2]
      · right
        refine ⟨r, List.mem_cons_self r rs, hin, ?_⟩
        rw [h]; exact hd
    · right; exact ⟨row, List.mem_cons_of_mem r hrow, hin, hd⟩

lemma foldl_year_absent (rows : List BibRow) :
    ∀ m : Metadata, (∀ row ∈ rows, ¬ pyIn "Release Date" (row.th.getD "") = true) →
      (rows.foldl updRow m).year = m.year := by
  induction rows with
  | nil => intro m _; rfl
  | cons r rs ih =>
    intro m h
    rw [List.foldl_cons, ih (updRow m r) (fun row hr => h row (List.mem_cons_of_mem r hr)),
      updRow_year_not_matched m r (h r (List.mem_cons_self r rs))]

lemma foldl_language_absent (rows : List BibRow) :
    ∀ m : Metadata, (∀ row ∈ rows, ¬ pyIn "Language" (row.th.getD "") = true) →
      (rows.foldl updRow m).language = m.language := by
  induction rows with
  | nil => intro m _; rfl
  | cons r rs ih =>
    intro m h
    rw [List.foldl_cons, ih (updRow m r) (fun row hr => h row (List.mem_cons_of_mem r hr)),
      updRow_language_not_matched m r (h r (List.mem_cons_self r rs))]

/-- Claim C6: `get_book_metadata` never fails — it is a total function into
`Metadata` — and: when the detail-page fetch is falsy both fields are
"Unknown"; the year differs from its "Unknown" default only by being the
first 4-digit run found in the value text of a parsed table row whose label
contains "Release Date"; the language differs from its default only by being
the trimmed value text of a row whose label contains "Language"; and when no
row matches a label, the corresponding field stays at its "Unknown" default. -/
theorem metadata_defaults_and_extraction (env : Env) (book_id : String) :
    (pyTruthy (env.fetch ("https://www.gutenberg.org/ebooks/" ++ book_id)) = none →
      get_book_metadata env book_id = ⟨"Unknown", "Unknown"⟩) ∧
    ((get_book_metadata env book_id).year = "Unknown" ∨
      ∃ text rows row,
        pyTruthy (env.fetch ("https://www.gutenberg.org/ebooks/" ++ book_id)) = some text ∧
        env.parseBibrec text = some rows ∧ row ∈ rows ∧
        pyIn "Release Date" (row.th.getD "") = true ∧
        firstDigits4 (row.td.getD "").data = some ((get_book_metadata env book_id).year)) ∧
    ((get_book_metadata env book_id).language = "Unknown" ∨
      ∃ text rows row,
        pyTruthy (env.fetch ("https://www.gutenberg.org/ebooks/" ++ book_id)) = some text ∧
        env.parseBibrec text = some rows ∧ row ∈ rows ∧
        pyIn "Language" (row.th.getD "") = true ∧
        pyStrip (row.td.getD "") = (get_book_metadata env book_id).language) ∧
    (∀ text rows,
      pyTruthy (env.fetch ("https://www.gutenberg.org/ebooks/" ++ book_id)) = some text →
      env.parseBibrec text = some rows →
      ((∀ row ∈ rows, ¬ pyIn "Release Date" (row.th.getD "") = true) →
        (get_book_metadata env book_id).year = "Unknown") ∧
      ((∀ row ∈ rows, ¬ pyIn "Language" (row.th.getD "") = true) →
        (get_book_metadata env book_id).language = "Unknown")) := by
  cases hf : pyTruthy (env.fetch ("https://www.gutenberg.org/ebooks/" ++ book_id)) with
  | none =>
    have hmd : get_book_metadata env book_id = ⟨"Unknown", "Unknown"⟩ := by
      simp [get_book_metadata, hf]
    refine ⟨fun _ => hmd, ?_, ?_, ?_⟩
    · left; rw [hmd]
    · left; rw [hmd]
    · intro text rows h1
      exact absurd h1 (by simp)
  | some text0 =>
    cases hp : env.parseBibrec text0 with
    | none =>
      have hmd : get_book_metadata env book_id = ⟨"Unknown", "Unknown"⟩ := by
        simp [get_book_metadata, hf, hp]
      refine ⟨fun h => absurd h (by simp), ?_, ?_, ?_⟩
      · left; rw [hmd]
      · left; rw [hmd]
      · intro text rows h1 h2
        have htext : text = text0 := by injection h1 with h; exact h.symm
        rw [htext, hp] at h2
        exact absurd h2 (by simp)
    | some rows0 =>
      have hmd : get_book_metadata env book_id = rows0.foldl updRow ⟨"Unknown", "Unknown"⟩ := by
        simp [get_book_metadata, hf, hp]
      refine ⟨fun h => absurd h (by simp), ?_, ?_, ?_⟩
      · rcases foldl_year_cases rows0 ⟨"Unknown", "Unknown"⟩ with h | ⟨row, hrow, hin, hd⟩
        · left; rw [hmd, h]
        · right
          exact ⟨text0, rows0, row, rfl, hp, hrow, hin, by rw [hmd]; exact hd⟩
      · rcases foldl_language_cases rows0 ⟨"Unknown", "Unknown"⟩ with h | ⟨row, hrow, hin, hd⟩
        · left; rw [hmd, h]
        · right
          exact ⟨text0, rows0, row, rfl, hp, hrow, hin, by rw [hmd]; exact hd⟩
      · intro text rows h1 h2
        have htext : text = text0 := by injection h1 with h; exact h.symm
        rw [htext, hp] at h2
        have hrows : rows = rows0 := by injection h2 with h; exact h.symm
        subst hrows
        constructor
        · intro habs
          rw [hmd]
          exact foldl_year_absent rows ⟨"Unknown", "Unknown"⟩ habs
        · intro habs
          rw [hmd]
          exact foldl_language_absent rows ⟨"Unknown", "Unknown"⟩ habs

/-- Claim C1: a `BookRecord` is emitted for a listing entry exactly when the
resolved metadata's language, lowercased, equals `"english"` and the Locator
returns non-absent content.  In particular a non-matching language emits
nothing (content resolution contributes nothing to the outcome), and an
absent Locator result emits nothing. -/
theorem record_emitted_iff (env : Env) (book : BookElem) :
    (download_books env book).isSome = true ↔
      (pyLower (get_book_metadata env (lastSegment book.href)).language = "english" ∧
        (get_book_data env.fetch (lastSegment book.href)).isSome = true) := by
  simp only [download_books]
  by_cases hl : pyLower (get_book_metadata env (lastSegment book.href)).language = "english"
  · have hne := get_book_data_ne_some_empty env.fetch (lastSegment book.href)
    rw [pyTruthy_of_ne_empty hne]
    cases hg : get_book_data env.fetch (lastSegment book.href) with
    | none => simp [hl, hg]
    | some t => simp [hl, hg]
  · simp [hl]

/-- Claim C9: for a listing entry whose language passes the filter and whose
content resolves, the emitted record's title is the entry's title text or
the literal `"No Title"` when the `span.title` element is missing, and its
author is the entry's subtitle text or the literal `"Unknown Author"` when
the `span.subtitle` element is missing; such entries are not skipped. -/
theorem missing_title_author_defaults (env : Env) (book : BookElem) (t : String)
    (hlang : pyLower (get_book_metadata env (lastSegment book.href)).language = "english")
    (htext : get_book_data env.fetch (lastSegment book.href) = some t) :
    download_books env book =
      some ⟨lastSegment book.href, book.title.getD "No Title",
        book.subtitle.getD "Unknown Author",
        (get_book_metadata env (lastSegment book.href)).year, t⟩ := by
  have hne := get_book_data_ne_some_empty env.fetch (lastSegment book.href)
  simp only [download_books]
  rw [pyTruthy_of_ne_empty hne, htext]
  simp [hlang]

/-- Concrete environment for the C9 witness: every fetch answers the text
`"page"`, and the bibliographic table parses to one row labelling the
language as English. -/
def envW : Env where
  fetch := fun _ => some "page"
  parseBibrec := fun _ => some [⟨some "Language", some "English"⟩]
  parseBooklinks := fun _ => []
  findNextHref := fun _ => none

/-- Listing entry for the C9 witness: it has an `href` but neither a title
nor a subtitle element. -/
def bookW : BookElem := ⟨"/ebooks/77", none, none⟩

/-- Claim C9, witness: in `envW` the entry `bookW` passes the language
filter, resolves content `"page"`, and the emitted record carries the
default title and author. -/
theorem missing_title_author_defaults_concrete :
    download_books envW bookW =
      some ⟨lastSegment bookW.href, bookW.title.getD "No Title",
        bookW.subtitle.getD "Unknown Author",
        (get_book_metadata envW (lastSegment bookW.href)).year, "page"⟩ :=
  missing_title_author_defaults envW bookW "page" (by decide) (by decide)

/-- Environment in which every fetch fails, for the C3 counterexample. -/
def envNoFetch : Env where
  fetch := fun _ => none
  parseBibrec := fun _ => none
  parseBooklinks := fun _ => []
  findNextHref := fun _ => none

/-- Claim C3, counterexample: when the index-page fetch fails the walk does
NOT terminate — the loop body leaves the state unchanged (same URL, same
books, same processed set) and iterates again, because the source's
`while True:` has no exit on a falsy `fetch_text` result.  So "it terminates
when a page fetch fails" is false: in `envNoFetch` the walk re-fetches the
same URL forever. -/
theorem walk_fetch_failure_repeats :
    pyTruthy (envNoFetch.fetch initState.indexUrl) = none ∧
      walkStep envNoFetch initState = .cont initState :=
  ⟨rfl, rfl⟩

/-- Claim C3, amended: one iteration of the page walk terminates the walk
exactly when the page fetch yields truthy text AND the page yields zero
listing entries or has no "next" link; when the page fetch fails (falsy
result) the walk does not terminate but repeats with the same state, and
when the fetch succeeds with entries and a "next" link it continues with the
next-link URL. -/
theorem walk_step_halts_iff (env : Env) (s : WalkState) :
    ((∃ s2, walkStep env s = .halt s2) ↔
      (∃ text, pyTruthy (env.fetch s.indexUrl) = some text ∧
        (env.parseBooklinks text = [] ∨ env.findNextHref text = none))) ∧
    (pyTruthy (env.fetch s.indexUrl) = none → walkStep env s = .cont s) ∧
    (∀ text href, pyTruthy (env.fetch s.indexUrl) = some text →
      env.parseBooklinks text ≠ [] → env.findNextHref text = some href →
      ∃ s2, walkStep env s = .cont s2 ∧
        s2.indexUrl = "https://www.gutenberg.org" ++ href) := by
  cases hf : pyTruthy (env.fetch s.indexUrl) with
  | none =>
    refine ⟨?_, fun _ => by simp [walkStep, hf], ?_⟩
    · constructor
      · rintro ⟨s2, h2⟩
        simp only [walkStep, hf] at h2
        exact absurd h2 (by simp)
      · rintro ⟨text, htext, _⟩
        exact absurd htext (by simp)
    · intro text href htext _ _
      exact absurd htext (by simp)
  | some text0 =>
    cases hb : env.parseBooklinks text0 with
    | nil =>
      refine ⟨?_, by simp, ?_⟩
      · constructor
        · intro _
          exact ⟨text0, rfl, Or.inl hb⟩
        · intro _
          exact ⟨s, by simp only [walkStep, hf, hb]⟩
      · intro text href htext hne _
        have : text = text0 := by injection htext with h; exact h.symm
        rw [this] at hne
        exact absurd hb hne
    | cons b bs =>
      cases hn : env.findNextHref text0 with
      | some href0 =>
        refine ⟨?_, by simp, ?_⟩
        · constructor
          · rintro ⟨s2, h2⟩
            simp only [walkStep, hf, hb, hn] at h2
            exact absurd h2 (by simp)
          · rintro ⟨text, htext, hor⟩
            have : text = text0 := by injection htext with h; exact h.symm
            rw [this] at hor
            rcases hor with h1 | h1
            · rw [hb] at h1; exact absurd h1 (by simp)
            · rw [hn] at h1; exact absurd h1 (by simp)
        · intro text href htext _ hnx
          have ht : text = text0 := by injection htext with h; exact h.symm
          rw [ht, hn] at hnx
          have hh : href0 = href := by injection hnx
          refine ⟨⟨"https://www.gutenberg.org" ++ href0,
              s.books ++
                ((scheduleTasks (b :: bs) s.processed).1.map (download_books env)).filterMap id,
              (scheduleTasks (b :: bs) s.processed).2,
              s.sched ++ (scheduleTasks (b :: bs) s.processed).1.map bidOf⟩, ?_, ?_⟩
          · simp only [walkStep, hf, hb, hn]
          · rw [hh]
      | none =>
        refine ⟨?_, by simp, ?_⟩
        · constructor
          · intro _
            exact ⟨text0, rfl, Or.inr hn⟩
          · intro _
            refine ⟨⟨s.indexUrl,
              s.books ++
                ((scheduleTasks (b :: bs) s.processed).1.map (download_books env)).filterMap id,
              (scheduleTasks (b :: bs) s.processed).2,
              s.sched ++ (scheduleTasks (b :: bs) s.processed).1.map bidOf⟩, ?_⟩
            simp only [walkStep, hf, hb, hn]
        · intro text href htext _ hnx
          have ht : text = text0 := by injection htext with h; exact h.symm
          rw [ht, hn] at hnx
          exact absurd hnx (by simp)

/-! ## Invariant for the scheduling claim (C5) -/

/-- Invariant threaded through the walk: the scheduling trace has no
duplicates, and every scheduled id is in the processed set. -/
def WalkInv (s : WalkState) : Prop :=
  s.sched.Nodup ∧ ∀ x ∈ s.sched, x ∈ s.processed

lemma scheduleTasks_spec :
    ∀ (elems : List BookElem) (processed : List String),
      (scheduleTasks elems processed).2 =
          processed ++ (scheduleTasks elems processed).1.map bidOf ∧
        ((scheduleTasks elems processed).1.map bidOf).Nodup ∧
        ∀ b ∈ (scheduleTasks elems processed).1, bidOf b ∉ processed := by
  intro elems
  induction elems with
  | nil => intro processed; simp [scheduleTasks]
  | cons b rest ih =>
    intro processed
    by_cases hb : bidOf b ∈ processed
    · simpa [scheduleTasks, hb] using ih processed
    · obtain ⟨h1, h2, h3⟩ := ih (processed ++ [bidOf b])
      simp only [scheduleTasks, if_neg hb]
      refine ⟨?_, ?_, ?_⟩
      · simp only [List.map_cons]
        rw [h1, List.append_assoc]
        rfl
      · simp only [List.map_cons, List.nodup_cons]
        refine ⟨?_, h2⟩
        intro hmem
        rcases List.mem_map.mp hmem with ⟨x, hx, hbid⟩
        exact h3 x hx (by rw [hbid]; exact List.mem_append_right _ (by simp))
      · intro x hx
        rcases List.mem_cons.mp hx with h | h
        · rw [h]; exact hb
        · intro hmem
          exact h3 x h (List.mem_append_left _ hmem)

lemma walkStep_preserves_inv (env : Env) (s : WalkState) (h : WalkInv s) :
    ∀ s2, (walkStep env s = .cont s2 ∨ walkStep env s = .halt s2) → WalkInv s2 := by
  have hpage : ∀ (b : BookElem) (bs : List BookElem),
      WalkInv ⟨"", s.books, (scheduleTasks (b :: bs) s.processed).2,
        s.sched ++ (scheduleTasks (b :: bs) s.processed).1.map bidOf⟩ := by
    intro b bs
    obtain ⟨h1, h2, h3⟩ := scheduleTasks_spec (b :: bs) s.processed
    constructor
    · exact h.1.append h2 (fun x hx hx2 => by
        rcases List.mem_map.mp hx2 with ⟨y, hy, hbid⟩
        exact h3 y hy (by rw [hbid]; exact h.2 x hx))
    · intro x hx
      rw [h1]
      rcases List.mem_append.mp hx with h4 | h4
      · exact List.mem_append_left _ (h.2 x h4)
      · exact List.mem_append_right _ h4
  intro s2 hs2
  cases hf : pyTruthy (env.fetch s.indexUrl) with
  | none =>
    rcases hs2 with h2 | h2 <;> simp only [walkStep, hf] at h2
    · injection h2 with h2; rw [← h2]; exact h
    · exact absurd h2 (by simp)
  | some text0 =>
    cases hb : env.parseBooklinks text0 with
    | nil =>
      rcases hs2 with h2 | h2 <;> simp only [walkStep, hf, hb] at h2
      · exact absurd h2 (by simp)
      · injection h2 with h2; rw [← h2]; exact h
    | cons b bs =>
      cases hn : env.findNextHref text0 with
      | some href0 =>
        rcases hs2 with h2 | h2 <;> simp only [walkStep, hf, hb, hn] at h2
        · injection h2 with h2
          rw [← h2]
          exact hpage b bs
        · exact absurd h2 (by simp)
      | none =>
        rcases hs2 with h2 | h2 <;> simp only [walkStep, hf, hb, hn] at h2
        · exact absurd h2 (by simp)
        · injection h2 with h2
          rw [← h2]
          exact hpage b bs

lemma walkRun_preserves_inv (env : Env) :
    ∀ (fuel : Nat) (s : WalkState), WalkInv s → WalkInv (walkRun env fuel s) := by
  intro fuel
  induction fuel with
  | zero => intro s h; exact h
  | succ n ih =>
    intro s h
    cases hw : walkStep env s with
    | cont s2 =>
      rw [walkRun, hw]
      exact ih s2 (walkStep_preserves_inv env s h s2 (Or.inl hw))
    | halt s2 =>
      rw [walkRun, hw]
      exact walkStep_preserves_inv env s h s2 (Or.inr hw)

/-- Claim C5: within a single run, every book id is scheduled for resolution
at most once — the trace of scheduled ids accumulated over arbitrarily many
pages of the walk has no duplicates, because an id is added to the processed
set at scheduling time, before its resolution work runs, and ids already in
the set are skipped. -/
theorem no_duplicate_scheduling (env : Env) (fuel : Nat) :
    ((walkRun env fuel initState).sched).Nodup :=
  (walkRun_preserves_inv env fuel initState ⟨List.nodup_nil, by simp [initState]⟩).1

/-- Claim C8: the run entry point is idempotent across invocations.  When
the output artifact does not exist, one full acquisition run executes and
its records are handed to the Sink, which persists the artifact; when the
artifact exists, the invocation performs no acquisition work; hence a second
invocation after a completed run is a no-op. -/
theorem run_entry_idempotent (env : Env) (fuel : Nat) :
    main_entry env fuel ⟨false⟩ = (some (get_books_list env fuel), ⟨true⟩) ∧
    main_entry env fuel ⟨true⟩ = (none, ⟨true⟩) ∧
    (main_entry env fuel (main_entry env fuel ⟨false⟩).2).1 = none :=
  ⟨rfl, rfl, rfl⟩

end Gutenberg
